import Mathlib

/-
Shallow embedding of the dynamic array component of the repository
(namespace DS, class Array in the List.h header). The C++ class keeps an
int capacity, an int size and a raw buffer; we model the observable state
as the allocated capacity together with the list of the live elements
(the first size slots). Indices stay mathematical integers, matching the
int index parameters of the C++ code, so negative-index behaviour is
representable. Every throwing operation returns Except Err, where Err is
the error vocabulary of the specification: out_of_range with message
Index out of bounds or Length is out of bounds maps to IndexOutOfRange,
runtime_error Array is empty to Underflow, Array is full to
CapacityExceeded, and Invalid capacity / Invalid capacity argument /
Invalid length to InvalidArgument.
-/

deriving instance DecidableEq for Except

namespace DS

inductive Err where
  | IndexOutOfRange
  | Underflow
  | CapacityExceeded
  | InvalidArgument
deriving DecidableEq

structure Array (α : Type) where
  capacity : Nat
  elems : List α
deriving DecidableEq

variable {α : Type}

/-- Accessor size() returns the count of live elements. -/
def size (a : Array α) : Nat := a.elems.length

/-- Private helper index_in_bounds: index greater or equal 0 and strictly below size. -/
def index_in_bounds (a : Array α) (index : Int) : Prop :=
  0 ≤ index ∧ index < (size a : Int)

instance (a : Array α) (index : Int) : Decidable (index_in_bounds a index) :=
  decidable_of_iff (0 ≤ index ∧ index < (size a : Int)) Iff.rfl

/-- Private helper setter_index_in_bounds: index greater or equal 0 and at most size. -/
def setter_index_in_bounds (a : Array α) (index : Int) : Prop :=
  0 ≤ index ∧ index ≤ (size a : Int)

instance (a : Array α) (index : Int) : Decidable (setter_index_in_bounds a index) :=
  decidable_of_iff (0 ≤ index ∧ index ≤ (size a : Int)) Iff.rfl

/-- Private helper full(): size equals capacity. -/
def full (a : Array α) : Prop := size a = a.capacity

instance (a : Array α) : Decidable (full a) :=
  decidable_of_iff (size a = a.capacity) Iff.rfl

/-- Public empty(): size equals 0. -/
def emptyA (a : Array α) : Prop := size a = 0

instance (a : Array α) : Decidable (emptyA a) :=
  decidable_of_iff (size a = 0) Iff.rfl

/-- Constructor Array(capacity = 1): set_capacity validates capacity >= 1
(throwing Invalid capacity otherwise), size becomes 0, a fresh buffer of
that capacity is allocated. -/
def mkArray (capacity : Int) : Except Err (Array α) :=
  if capacity < 1 then .error .InvalidArgument
  else .ok { capacity := capacity.toNat, elems := [] }

/-- clear(): deletes the buffer, nulls the pointer and sets size to 0.
The capacity field is not touched by the source. -/
def clear (a : Array α) : Array α :=
  { capacity := a.capacity, elems := [] }

/-- resize(new_capacity): throws Invalid capacity argument when
new_capacity < 1, is a no-op when new_capacity equals capacity, and
otherwise allocates a buffer of new_capacity slots, copies
copy_limit = min(new_capacity, size) elements, frees the old buffer and
sets capacity to new_capacity and size to copy_limit. -/
def resize (new_capacity : Int) (a : Array α) : Except Err (Array α) :=
  if new_capacity < 1 then .error .InvalidArgument
  else if new_capacity = (a.capacity : Int) then .ok a
  else
    let copy_limit := min new_capacity.toNat (size a)
    .ok { capacity := new_capacity.toNat, elems := a.elems.take copy_limit }

/-- Private grow(): when full, resize to capacity * 2, or to 1 when the
capacity is 0. -/
def grow (a : Array α) : Except Err (Array α) :=
  if full a then
    resize (if a.capacity = 0 then (1 : Int) else ((a.capacity * 2 : Nat) : Int)) a
  else .ok a

/-- Private shrink(): when size < capacity / 4, resize to capacity / 2
(integer division, as in the source). -/
def shrink (a : Array α) : Except Err (Array α) :=
  if size a < a.capacity / 4 then resize ((a.capacity / 2 : Nat) : Int) a
  else .ok a

/-- push(value): grow when full, then write the value at index size and
increment size. -/
def push (value : α) (a : Array α) : Except Err (Array α) := do
  let b ← if full a then grow a else .ok a
  .ok { capacity := b.capacity, elems := b.elems ++ [value] }

/-- Modelled from the spec: pop removes the last element, decrements size
by one and runs the shrink check; it fails with Underflow on an empty
array. The source line for the decrement reads minus-minus size, which
applies the decrement to the member function named size instead of the
field with the underscore prefix; that statement is ill-formed C++ (it
fails to compile as soon as pop is instantiated), so we model the
documented intent, keeping the empty-guard exactly as written in the
source. -/
def pop (a : Array α) : Except Err (Array α) :=
  if emptyA a then .error .Underflow
  else shrink { capacity := a.capacity, elems := a.elems.dropLast }

/-- Getter at(index) and the const index operator: bounds-check with
index_in_bounds, then read the slot. -/
def atIdx (index : Int) (a : Array α) : Except Err α :=
  if h : index_in_bounds a index then
    .ok (a.elems.get ⟨index.toNat, by
      rcases h with ⟨h1, h2⟩
      simp only [size] at h2
      omega⟩)
  else .error .IndexOutOfRange

/-- Mutable index operator used as a write of value at index: the
setter_index_in_bounds check throws Index out of bounds, then a full
buffer throws Array is full for every accepted index, then index equal to
size increments size (the returned reference makes the caller write the
value into slot index). -/
def setIdx (index : Int) (value : α) (a : Array α) : Except Err (Array α) :=
  if ¬ setter_index_in_bounds a index then .error .IndexOutOfRange
  else if full a then .error .CapacityExceeded
  else if index = (size a : Int) then
    .ok { capacity := a.capacity, elems := a.elems ++ [value] }
  else
    .ok { capacity := a.capacity, elems := a.elems.set index.toNat value }

/-- insert_at(index, value): bounds-check with index_in_bounds (the strict
read range), pre-increment capacity when full, copy the prefix below
index, place the value at index, shift the old elements from index one
slot up, install the new buffer and the new size, then run grow. -/
def insert_at (index : Int) (value : α) (a : Array α) : Except Err (Array α) :=
  if ¬ index_in_bounds a index then .error .IndexOutOfRange
  else
    grow { capacity := if full a then a.capacity + 1 else a.capacity,
           elems := a.elems.take index.toNat ++ value :: a.elems.drop index.toNat }

/-- remove_at(index, length = 1): bounds-check the start index with
index_in_bounds, throw Invalid length when length < 0, return unchanged
when length = 0, throw Length is out of bounds when
index + length - 1 >= size, otherwise copy the surviving prefix and
suffix into a buffer of the same capacity, set the decreased size and run
shrink. -/
def remove_at (index : Int) (length : Int) (a : Array α) : Except Err (Array α) :=
  if ¬ index_in_bounds a index then .error .IndexOutOfRange
  else if length < 0 then .error .InvalidArgument
  else if length = 0 then .ok a
  else if (size a : Int) ≤ index + (length - 1) then .error .IndexOutOfRange
  else shrink { capacity := a.capacity,
                elems := a.elems.take index.toNat
                         ++ a.elems.drop (index.toNat + length.toNat) }

/-- pop_back(): remove_at(size - 1, 1). -/
def pop_back (a : Array α) : Except Err (Array α) :=
  remove_at ((size a : Int) - 1) 1 a

/-- pop_front(): remove_at(0, 1). -/
def pop_front (a : Array α) : Except Err (Array α) :=
  remove_at 0 1 a

/-- find(value): index of the first live slot holding the value, or -1. -/
def find [DecidableEq α] (value : α) (a : Array α) : Int :=
  match a.elems.findIdx? (fun x => decide (x = value)) with
  | some n => (n : Int)
  | none => -1

/-- remove(value): remove_at(find(value), 1) when found, otherwise do
nothing. -/
def remove [DecidableEq α] (value : α) (a : Array α) : Except Err (Array α) :=
  if find value a ≠ -1 then remove_at (find value a) 1 a else .ok a

/-- One swap of the loop body of reverse(): exchange slots i and j. -/
def swapSlots (l : List α) (i j : Nat) : List α :=
  match l[i]?, l[j]? with
  | some x, some y => (l.set i y).set j x
  | _, _ => l

/-- Loop of reverse(): for each step, swap slot i with slot sz - 1 - i and
move to i + 1; the fuel argument counts the remaining iterations. -/
def revIter (sz : Nat) : Nat → Nat → List α → List α
  | _, 0, l => l
  | i, fuel + 1, l => revIter sz (i + 1) fuel (swapSlots l i (sz - 1 - i))

/-- reverse(): no-op on an empty array, otherwise swap slot i with slot
size - 1 - i for i from 0 up to mid = (size - 1) / 2. -/
def reverse (a : Array α) : Array α :=
  if emptyA a then a
  else
    { capacity := a.capacity,
      elems := revIter (size a) 0 ((size a - 1) / 2 + 1) a.elems }

/-- Representation invariant of the container: the live-element count
never exceeds the allocated capacity. Sizes are natural numbers in the
model, so the lower bound 0 <= size of the specification holds by type. -/
def Inv (a : Array α) : Prop := size a ≤ a.capacity

instance (a : Array α) : Decidable (Inv a) :=
  decidable_of_iff (size a ≤ a.capacity) Iff.rfl

/-! Shape lemmas describing the exact result of the internal reallocation
helpers on every input state. -/

lemma resize_realloc (n : Int) (a : Array α) (h1 : 1 ≤ n) (h2 : n ≠ (a.capacity : Int)) :
    resize n a =
      .ok { capacity := n.toNat, elems := a.elems.take (min n.toNat (size a)) } := by
  unfold resize
  rw [if_neg (by omega), if_neg h2]

lemma grow_total (a : Array α) :
    grow a = .ok { capacity := if size a = a.capacity then
                     (if a.capacity = 0 then 1 else a.capacity * 2) else a.capacity,
                   elems := a.elems } := by
  unfold grow full
  by_cases hf : size a = a.capacity
  · by_cases hc : a.capacity = 0
    · have hnil : a.elems = [] := List.length_eq_zero.mp (by simp only [size] at hf; omega)
      rw [if_pos hf, if_pos hc, resize_realloc _ _ (by omega) (by rw [hc]; decide)]
      simp [hf, hc, hnil, size]
    · rw [if_pos hf, if_neg hc,
        resize_realloc _ _ (by omega)
          (by simp only [ne_eq, Nat.cast_inj]; omega), if_pos hf, if_neg hc]
      have h1 : ((a.capacity * 2 : Nat) : Int).toNat = a.capacity * 2 :=
        Int.toNat_natCast _
      rw [h1]
      have hmin : min (a.capacity * 2) (size a) = a.elems.length := by
        simp only [size] at hf ⊢; omega
      rw [hmin, List.take_length]
  · rw [if_neg hf, if_neg hf]

lemma shrink_total (a : Array α) :
    shrink a = .ok { capacity := if size a < a.capacity / 4 then a.capacity / 2
                                 else a.capacity,
                     elems := a.elems } := by
  unfold shrink
  by_cases ht : size a < a.capacity / 4
  · have hc4 : 4 ≤ a.capacity := by omega
    rw [if_pos ht, if_pos ht,
      resize_realloc _ _ (by omega)
        (by simp only [ne_eq, Nat.cast_inj]; omega)]
    have h1 : ((a.capacity / 2 : Nat) : Int).toNat = a.capacity / 2 :=
      Int.toNat_natCast _
    rw [h1]
    have hmin : min (a.capacity / 2) (size a) = a.elems.length := by
      simp only [size] at ht ⊢; omega
    rw [hmin, List.take_length]
  · rw [if_neg ht, if_neg ht]

lemma push_total (v : α) (a : Array α) :
    push v a = .ok { capacity := if size a = a.capacity then
                       (if a.capacity = 0 then 1 else a.capacity * 2) else a.capacity,
                     elems := a.elems ++ [v] } := by
  unfold push full
  by_cases hf : size a = a.capacity
  · rw [if_pos hf, grow_total, if_pos hf]
    rfl
  · rw [if_neg hf, if_neg hf]
    rfl

lemma pop_total (a : Array α) (h : size a ≠ 0) :
    pop a = .ok { capacity := if size a - 1 < a.capacity / 4 then a.capacity / 2
                              else a.capacity,
                  elems := a.elems.dropLast } := by
  unfold pop emptyA
  rw [if_neg h, shrink_total]
  simp [size, List.length_dropLast]

lemma insert_at_grow (a : Array α) (i : Int) (v : α) (h : index_in_bounds a i) :
    insert_at i v a =
      grow { capacity := if full a then a.capacity + 1 else a.capacity,
             elems := a.elems.take i.toNat ++ v :: a.elems.drop i.toNat } := by
  unfold insert_at
  rw [if_neg (not_not_intro h)]

lemma insert_at_oob (a : Array α) (i : Int) (v : α) (h : ¬ index_in_bounds a i) :
    insert_at i v a = .error .IndexOutOfRange := by
  unfold insert_at
  rw [if_pos h]

lemma remove_at_shrink (a : Array α) (i len : Int) (h : index_in_bounds a i)
    (h0 : 0 < len) (hend : i + (len - 1) < (size a : Int)) :
    remove_at i len a =
      shrink { capacity := a.capacity,
               elems := a.elems.take i.toNat ++ a.elems.drop (i.toNat + len.toNat) } := by
  unfold remove_at
  rw [if_neg (not_not_intro h), if_neg (by omega), if_neg (by omega), if_neg (by omega)]

/-! Preservation of the representation invariant by every public
operation, one lemma per operation. -/

lemma length_swapSlots (l : List α) (i j : Nat) :
    (swapSlots l i j).length = l.length := by
  unfold swapSlots
  cases l[i]? <;> cases l[j]? <;> simp

lemma length_revIter (sz : Nat) (fuel i : Nat) (l : List α) :
    (revIter sz i fuel l).length = l.length := by
  induction fuel generalizing i l with
  | zero => rfl
  | succ f ih =>
    simp only [revIter]
    rw [ih, length_swapSlots]

lemma inv_mkArray (c : Int) (a : Array α) (h : mkArray c = .ok a) : Inv a := by
  unfold mkArray at h
  split_ifs at h with h1
  simp only [Except.ok.injEq] at h
  subst h
  exact Nat.zero_le _

lemma inv_clear (a : Array α) : Inv (clear a) := Nat.zero_le _

lemma inv_push (a : Array α) (v : α) (b : Array α) (ha : Inv a) (h : push v a = .ok b) :
    Inv b := by
  rw [push_total] at h
  simp only [Except.ok.injEq] at h
  subst h
  simp only [Inv, size, List.length_append, List.length_cons, List.length_nil] at ha ⊢
  split_ifs with h1 h2 <;> omega

lemma inv_pop (a b : Array α) (ha : Inv a) (h : pop a = .ok b) : Inv b := by
  by_cases he : size a = 0
  · unfold pop emptyA at h
    rw [if_pos he] at h
    simp at h
  · rw [pop_total a he] at h
    simp only [Except.ok.injEq] at h
    subst h
    simp only [Inv, size, List.length_dropLast] at ha ⊢
    split_ifs with h1 <;> omega

lemma inv_setIdx (a : Array α) (i : Int) (v : α) (b : Array α) (ha : Inv a)
    (h : setIdx i v a = .ok b) : Inv b := by
  unfold setIdx full at h
  split_ifs at h with h1 h2 h3
  · simp only [Except.ok.injEq] at h
    subst h
    simp only [size] at h2
    simp only [Inv, size, List.length_append, List.length_cons, List.length_nil] at ha ⊢
    omega
  · simp only [Except.ok.injEq] at h
    subst h
    simp only [Inv, size, List.length_set] at ha ⊢
    exact ha

lemma inv_insert_at (a : Array α) (i : Int) (v : α) (b : Array α) (ha : Inv a)
    (h : insert_at i v a = .ok b) : Inv b := by
  by_cases hib : index_in_bounds a i
  · have hn : i.toNat ≤ a.elems.length := by
      rcases hib with ⟨hb1, hb2⟩
      simp only [size] at hb2
      omega
    rw [insert_at_grow a i v hib, grow_total] at h
    simp only [Except.ok.injEq] at h
    subst h
    simp only [Inv, full, size, List.length_append, List.length_cons,
      List.length_take, List.length_drop] at ha ⊢
    split_ifs <;> first | omega | contradiction
  · rw [insert_at_oob a i v hib] at h
    simp at h

lemma inv_remove_at (a : Array α) (i len : Int) (b : Array α) (ha : Inv a)
    (h : remove_at i len a = .ok b) : Inv b := by
  unfold remove_at at h
  split_ifs at h with h1 h2 h3 h4
  · simp only [Except.ok.injEq] at h
    subst h
    exact ha
  · rw [shrink_total] at h
    simp only [Except.ok.injEq] at h
    subst h
    simp only [Inv, size, List.length_append, List.length_take, List.length_drop] at ha ⊢
    split_ifs with h5 <;> omega

lemma inv_remove [DecidableEq α] (a : Array α) (v : α) (b : Array α) (ha : Inv a)
    (h : remove v a = .ok b) : Inv b := by
  unfold remove at h
  split_ifs at h with h1
  · exact inv_remove_at a (find v a) 1 b ha h
  · simp only [Except.ok.injEq] at h
    subst h
    exact ha

lemma inv_resize (a : Array α) (n : Int) (b : Array α) (ha : Inv a)
    (h : resize n a = .ok b) : Inv b := by
  unfold resize at h
  split_ifs at h with h1 h2
  · simp only [Except.ok.injEq] at h
    subst h
    exact ha
  · simp only [Except.ok.injEq] at h
    subst h
    simp only [Inv, size, List.length_take]
    omega

lemma inv_reverse (a : Array α) (ha : Inv a) : Inv (reverse a) := by
  unfold reverse
  split_ifs with h1
  · exact ha
  · simp only [Inv, size, length_revIter]
    exact ha

/-! Success shape of insert_at and the list identity behind the
insert-then-remove round trip. -/

lemma insert_at_ok (a : Array α) (i : Int) (v : α) (h : index_in_bounds a i) :
    ∃ b, insert_at i v a = .ok b ∧
      b.elems = a.elems.take i.toNat ++ v :: a.elems.drop i.toNat := by
  rw [insert_at_grow a i v h, grow_total]
  exact ⟨_, rfl, rfl⟩

lemma length_insert_list (l : List α) (n : Nat) (v : α) (hn : n ≤ l.length) :
    (l.take n ++ v :: l.drop n).length = l.length + 1 := by
  simp only [List.length_append, List.length_cons, List.length_take, List.length_drop]
  omega

lemma take_drop_restore (l : List α) (n : Nat) (v : α) (hn : n ≤ l.length) :
    (l.take n ++ v :: l.drop n).take n ++ (l.take n ++ v :: l.drop n).drop (n + 1) = l := by
  have h1 : (l.take n ++ v :: l.drop n).take n = l.take n :=
    List.take_left' (by simp only [List.length_take]; omega)
  have h2 : (l.take n ++ v :: l.drop n).drop (n + 1) = l.drop n := by
    have hsplit : l.take n ++ v :: l.drop n = (l.take n ++ [v]) ++ l.drop n := by simp
    rw [hsplit]
    exact List.drop_left' (by simp only [List.length_append, List.length_take,
      List.length_cons, List.length_nil]; omega)
  rw [h1, h2, List.take_append_drop]

/-! Claim theorems. -/

/-- C1, counterexample: on the empty array constructed with capacity 1 the
index 0 satisfies 0 <= index <= size, yet insert_at(0, 42) fails with
IndexOutOfRange, refuting the claimed acceptance of every index up to and
including size. -/
theorem C1_insert_at_rejects_size_index :
    insert_at 0 (42 : ℤ) ({ capacity := 1, elems := [] } : Array ℤ) =
      .error .IndexOutOfRange ∧
    (0 : Int) ≤ (size ({ capacity := 1, elems := [] } : Array ℤ) : Int) := by
  decide

/-- C1, amended: insert_at(index, value) accepts exactly the indices with
0 <= index < size (the strict read range checked by index_in_bounds); it
succeeds on every such index and fails with IndexOutOfRange on every
other index, including index = size. -/
theorem C1_insert_at_bounds (a : Array ℤ) (i : Int) (v : ℤ) :
    ((0 ≤ i ∧ i < (size a : Int)) → ∃ b, insert_at i v a = .ok b) ∧
    (¬ (0 ≤ i ∧ i < (size a : Int)) → insert_at i v a = .error .IndexOutOfRange) := by
  constructor
  · intro h
    obtain ⟨b, hb, _⟩ := insert_at_ok a i v h
    exact ⟨b, hb⟩
  · intro h
    exact insert_at_oob a i v h

/-- C1, witness for the amended theorem at a concrete in-range input. -/
theorem C1_insert_at_bounds_witness :
    ∃ b, insert_at 1 (9 : ℤ) ({ capacity := 4, elems := [1, 2, 3] } : Array ℤ) = .ok b :=
  (C1_insert_at_bounds { capacity := 4, elems := [1, 2, 3] } 1 9).1 (by decide)

/-- C2: behaviour of the modelled pop. On an empty array it fails with
Underflow; on a non-empty array it removes the last element, decreases
size by exactly one and halves the capacity exactly when the decreased
size is below capacity / 4; and push immediately followed by pop restores
size to its pre-push value. The source decrement statement itself is
ill-formed C++ (it decrements the member function size, not the field),
so this theorem describes the intent documented by the specification. -/
theorem C2_pop_props (a : Array ℤ) :
    (size a = 0 → pop a = .error .Underflow) ∧
    (size a ≠ 0 → ∃ b, pop a = .ok b ∧ b.elems = a.elems.dropLast ∧
      size b + 1 = size a ∧
      b.capacity = if size a - 1 < a.capacity / 4 then a.capacity / 2 else a.capacity) ∧
    (∀ v : ℤ, ∃ c d, push v a = .ok c ∧ pop c = .ok d ∧ size d = size a) := by
  refine ⟨?_, ?_, ?_⟩
  · intro h
    unfold pop emptyA
    rw [if_pos h]
  · intro h
    rw [pop_total a h]
    refine ⟨_, rfl, rfl, ?_, rfl⟩
    simp only [size, List.length_dropLast]
    simp only [size] at h
    omega
  · intro v
    refine ⟨_, _, push_total v a, pop_total _ (by simp [size]), ?_⟩
    simp only [size, List.length_dropLast, List.length_append, List.length_cons,
      List.length_nil]
    omega

/-- C2, witness at a concrete two-element array. -/
theorem C2_pop_props_witness :
    ∃ b, pop ({ capacity := 2, elems := [(5 : ℤ), 6] } : Array ℤ) = .ok b ∧
      b.elems = [(5 : ℤ)] ∧ size b + 1 = 2 ∧ b.capacity = 2 :=
  (C2_pop_props { capacity := 2, elems := [5, 6] }).2.1 (by decide)

/-- C3, counterexample: clearing an array of capacity 2 leaves capacity at
2, refuting the claimed reset of capacity to 0. -/
theorem C3_clear_keeps_capacity :
    (clear ({ capacity := 2, elems := [(5 : ℤ)] } : Array ℤ)).capacity = 2 ∧
    ¬ (clear ({ capacity := 2, elems := [(5 : ℤ)] } : Array ℤ)).capacity = 0 := by
  decide

/-- C3, amended: clear() releases the live elements and sets size to 0,
but the capacity field keeps its previous value, on every state. -/
theorem C3_clear_spec (a : Array ℤ) :
    size (clear a) = 0 ∧ (clear a).elems = [] ∧ (clear a).capacity = a.capacity :=
  ⟨rfl, rfl, rfl⟩

/-- C4, counterexample: on the full one-element array the in-range index 0
(0 <= 0 < size) is rejected by the mutable index operator with
CapacityExceeded, refuting the claim that only the boundary write at
index = size can fail that way. -/
theorem C4_full_blocks_in_range_write :
    (0 : Int) < (size ({ capacity := 1, elems := [(7 : ℤ)] } : Array ℤ) : Int) ∧
    setIdx 0 (8 : ℤ) ({ capacity := 1, elems := [(7 : ℤ)] } : Array ℤ) =
      .error .CapacityExceeded := by
  decide

/-- C4, amended: the mutable index operator rejects out-of-range indices
with IndexOutOfRange; on a full buffer it fails with CapacityExceeded for
every accepted index, not only the boundary one; on a non-full buffer an
index below size overwrites that slot, and the boundary index = size
appends the value, incrementing size by one. -/
theorem C4_setIdx_spec (a : Array ℤ) (i : Int) (v : ℤ) :
    (¬ (0 ≤ i ∧ i ≤ (size a : Int)) → setIdx i v a = .error .IndexOutOfRange) ∧
    ((0 ≤ i ∧ i ≤ (size a : Int)) → size a = a.capacity →
      setIdx i v a = .error .CapacityExceeded) ∧
    ((0 ≤ i ∧ i < (size a : Int)) → size a ≠ a.capacity →
      setIdx i v a = .ok { capacity := a.capacity, elems := a.elems.set i.toNat v }) ∧
    (size a ≠ a.capacity →
      setIdx (size a : Int) v a =
        .ok { capacity := a.capacity, elems := a.elems ++ [v] }) := by
  refine ⟨?_, ?_, ?_, ?_⟩
  · intro h
    unfold setIdx setter_index_in_bounds
    rw [if_pos h]
  · intro h hf
    unfold setIdx setter_index_in_bounds full
    rw [if_neg (not_not_intro h), if_pos hf]
  · intro h hf
    unfold setIdx setter_index_in_bounds full
    rw [if_neg (not_not_intro ⟨h.1, le_of_lt h.2⟩), if_neg hf,
      if_neg (show ¬ i = (size a : Int) by have := h.2; omega)]
  · intro hf
    unfold setIdx setter_index_in_bounds full
    rw [if_neg (not_not_intro ⟨Int.natCast_nonneg _, le_refl _⟩), if_neg hf, if_pos rfl]

/-- C4, witness for the boundary append clause at a concrete input. -/
theorem C4_setIdx_spec_witness :
    setIdx 1 (7 : ℤ) ({ capacity := 2, elems := [(4 : ℤ)] } : Array ℤ) =
      .ok { capacity := 2, elems := [4, 7] } :=
  (C4_setIdx_spec { capacity := 2, elems := [4] } 1 7).2.2.2 (by decide)

/-- C5, counterexample: with the three-element array of capacity 4 the
index 3 equals size and is therefore valid for the claimed insert range
0 <= i <= size, yet the insert-then-remove round trip fails with
IndexOutOfRange instead of restoring the sequence. -/
theorem C5_roundtrip_fails_at_size :
    (insert_at 3 (99 : ℤ) ({ capacity := 4, elems := [1, 2, 3] } : Array ℤ)).bind
        (remove_at 3 1) = .error .IndexOutOfRange ∧
    (3 : Int) ≤ (size ({ capacity := 4, elems := [1, 2, 3] } : Array ℤ) : Int) := by
  decide

/-- C5, amended: for every index accepted by insert_at, that is
0 <= i < size, insert_at(i, v) followed by remove_at(i, 1) succeeds and
restores the original element sequence, with the original size. -/
theorem C5_insert_remove_roundtrip (a : Array ℤ) (i : Int) (v : ℤ)
    (h1 : 0 ≤ i) (h2 : i < (size a : Int)) :
    ∃ b c, insert_at i v a = .ok b ∧ remove_at i 1 b = .ok c ∧
      c.elems = a.elems ∧ size c = size a := by
  have hib : index_in_bounds a i := ⟨h1, h2⟩
  have hn : i.toNat ≤ a.elems.length := by
    simp only [size] at h2
    omega
  obtain ⟨b, hb, he⟩ := insert_at_ok a i v hib
  have hsz : size b = a.elems.length + 1 := by
    rw [size, he]
    exact length_insert_list a.elems i.toNat v hn
  have hib2 : index_in_bounds b i := by
    refine ⟨h1, ?_⟩
    rw [hsz]
    simp only [size] at h2
    omega
  have hend : i + (1 - 1) < (size b : Int) := by
    rw [hsz]
    simp only [size] at h2
    omega
  have e2 : b.elems.take i.toNat ++ b.elems.drop (i.toNat + (1 : Int).toNat) = a.elems := by
    rw [he]
    simp only [Int.toNat_one]
    exact take_drop_restore a.elems i.toNat v hn
  have hrem : ∃ c, remove_at i 1 b = .ok c ∧ c.elems = a.elems := by
    rw [remove_at_shrink b i 1 hib2 (by omega) hend, shrink_total]
    rw [e2]
    exact ⟨_, rfl, rfl⟩
  obtain ⟨c, hc, hce⟩ := hrem
  exact ⟨b, c, hb, hc, hce, by simp only [size, hce]⟩

/-- C5, witness: the round trip at index 1 of a concrete three-element
array. -/
theorem C5_insert_remove_roundtrip_witness :
    ∃ b c, insert_at 1 (99 : ℤ) ({ capacity := 4, elems := [1, 2, 3] } : Array ℤ) = .ok b ∧
      remove_at 1 1 b = .ok c ∧ c.elems = [1, 2, 3] ∧ size c = 3 :=
  C5_insert_remove_roundtrip { capacity := 4, elems := [1, 2, 3] } 1 99
    (by decide) (by decide)

/-- C6: pushing 1, 2, 3, 4 into an array constructed with capacity 1
yields size 4, capacity 4 and the elements 1, 2, 3, 4 readable through
at(); and in general a push on a full buffer first doubles the capacity
(starting from 1 when the capacity is 0) and then appends the value,
incrementing size. -/
theorem C6_push_growth_trace :
    ((do
        let a0 ← mkArray (α := ℤ) 1
        let a1 ← push 1 a0
        let a2 ← push 2 a1
        let a3 ← push 3 a2
        push 4 a3) = .ok { capacity := 4, elems := [1, 2, 3, 4] }) ∧
    (atIdx 0 ({ capacity := 4, elems := [1, 2, 3, 4] } : Array ℤ) = .ok 1 ∧
     atIdx 1 ({ capacity := 4, elems := [1, 2, 3, 4] } : Array ℤ) = .ok 2 ∧
     atIdx 2 ({ capacity := 4, elems := [1, 2, 3, 4] } : Array ℤ) = .ok 3 ∧
     atIdx 3 ({ capacity := 4, elems := [1, 2, 3, 4] } : Array ℤ) = .ok 4) ∧
    (∀ (a : Array ℤ) (v : ℤ), size a = a.capacity →
      ∃ b, push v a = .ok b ∧
        b.capacity = (if a.capacity = 0 then 1 else 2 * a.capacity) ∧
        b.elems = a.elems ++ [v]) := by
  refine ⟨by decide, ⟨by decide, by decide, by decide, by decide⟩, ?_⟩
  intro a v hf
  have h := push_total v a
  rw [if_pos hf] at h
  refine ⟨_, h, ?_, rfl⟩
  split_ifs with hc
  · rfl
  · exact Nat.mul_comm _ _

/-- C6, witness for the general doubling clause at a concrete full
two-element array. -/
theorem C6_push_growth_trace_witness :
    ∃ b, push (3 : ℤ) ({ capacity := 2, elems := [1, 2] } : Array ℤ) = .ok b ∧
      b.capacity = 4 ∧ b.elems = [1, 2, 3] :=
  C6_push_growth_trace.2.2 { capacity := 2, elems := [1, 2] } 3 (by decide)

/-- C7: resize(new_capacity) fails with InvalidArgument for every
new_capacity below 1, is a no-op when new_capacity equals the current
capacity, and otherwise reallocates, keeping exactly the first
min(new_capacity, size) elements in order and setting size to that copy
count, silently truncating on a shrink below size. -/
theorem C7_resize_spec (a : Array ℤ) (n : Int) :
    (n < 1 → resize n a = .error .InvalidArgument) ∧
    (1 ≤ n → n = (a.capacity : Int) → resize n a = .ok a) ∧
    (1 ≤ n → n ≠ (a.capacity : Int) →
      ∃ b, resize n a = .ok b ∧ b.capacity = n.toNat ∧
        b.elems = a.elems.take (min n.toNat (size a)) ∧
        size b = min n.toNat (size a)) := by
  refine ⟨?_, ?_, ?_⟩
  · intro h
    unfold resize
    rw [if_pos h]
  · intro hn1 h
    unfold resize
    rw [if_neg (by omega), if_pos h]
  · intro h1 h2
    rw [resize_realloc n a h1 h2]
    refine ⟨_, rfl, rfl, rfl, ?_⟩
    simp only [size, List.length_take]
    omega

/-- C7, witness: shrinking a three-element array of capacity 4 to
capacity 2 truncates to the first two elements. -/
theorem C7_resize_spec_witness :
    ∃ b, resize 2 ({ capacity := 4, elems := [1, 2, 3] } : Array ℤ) = .ok b ∧
      b.capacity = 2 ∧ b.elems = [1, 2] ∧ size b = 2 :=
  (C7_resize_spec { capacity := 4, elems := [1, 2, 3] } 2).2.2 (by decide) (by decide)

/-- C8: the representation invariant size at most capacity (with
0 <= size holding by the Nat model) is established by construction and
preserved by every successful public operation: push, pop, the mutable
index write, insert_at, remove_at, remove, resize, reverse and clear. -/
theorem C8_invariant_preserved :
    (∀ (c : Int) (a : Array ℤ), mkArray c = .ok a → Inv a) ∧
    (∀ (a : Array ℤ) (v : ℤ) (b : Array ℤ), Inv a → push v a = .ok b → Inv b) ∧
    (∀ (a b : Array ℤ), Inv a → pop a = .ok b → Inv b) ∧
    (∀ (a : Array ℤ) (i : Int) (v : ℤ) (b : Array ℤ),
      Inv a → setIdx i v a = .ok b → Inv b) ∧
    (∀ (a : Array ℤ) (i : Int) (v : ℤ) (b : Array ℤ),
      Inv a → insert_at i v a = .ok b → Inv b) ∧
    (∀ (a : Array ℤ) (i len : Int) (b : Array ℤ),
      Inv a → remove_at i len a = .ok b → Inv b) ∧
    (∀ (a : Array ℤ) (v : ℤ) (b : Array ℤ), Inv a → remove v a = .ok b → Inv b) ∧
    (∀ (a : Array ℤ) (n : Int) (b : Array ℤ), Inv a → resize n a = .ok b → Inv b) ∧
    (∀ a : Array ℤ, Inv a → Inv (reverse a)) ∧
    (∀ a : Array ℤ, Inv (clear a)) :=
  ⟨fun c a h => inv_mkArray c a h,
   fun a v b ha h => inv_push a v b ha h,
   fun a b ha h => inv_pop a b ha h,
   fun a i v b ha h => inv_setIdx a i v b ha h,
   fun a i v b ha h => inv_insert_at a i v b ha h,
   fun a i len b ha h => inv_remove_at a i len b ha h,
   fun a v b ha h => inv_remove a v b ha h,
   fun a n b ha h => inv_resize a n b ha h,
   fun a ha => inv_reverse a ha,
   fun a => inv_clear a⟩

/-- C8, witness: the invariant after a concrete successful push. -/
theorem C8_invariant_preserved_witness :
    Inv ({ capacity := 1, elems := [(5 : ℤ)] } : Array ℤ) :=
  C8_invariant_preserved.2.1 { capacity := 1, elems := [] } 5
    { capacity := 1, elems := [5] } (by decide) (by decide)

/-- C9: on a full array every accepted insert_at index leads the
post-insert grow check to fire, so the resulting capacity is exactly
2 * (old capacity + 1), never just old capacity + 1. -/
theorem C9_full_insert_doubles (a : Array ℤ) (i : Int) (v : ℤ)
    (hf : size a = a.capacity) (h1 : 0 ≤ i) (h2 : i < (size a : Int)) :
    ∃ b, insert_at i v a = .ok b ∧ b.capacity = 2 * (a.capacity + 1) := by
  have hib : index_in_bounds a i := ⟨h1, h2⟩
  have hn : i.toNat ≤ a.elems.length := by
    simp only [size] at h2
    omega
  rw [insert_at_grow a i v hib, grow_total]
  refine ⟨_, rfl, ?_⟩
  simp only [size] at h2
  simp only [full, size, List.length_append, List.length_cons, List.length_take,
    List.length_drop] at hf ⊢
  split_ifs <;> first | omega | contradiction

/-- C9, witness: inserting into the full one-element array of capacity 1
yields capacity 4 = 2 * (1 + 1). -/
theorem C9_full_insert_doubles_witness :
    ∃ b, insert_at 0 (7 : ℤ) ({ capacity := 1, elems := [5] } : Array ℤ) = .ok b ∧
      b.capacity = 4 :=
  C9_full_insert_doubles { capacity := 1, elems := [5] } 0 7
    (by decide) (by decide) (by decide)

/-- C10: on an empty array pop_back and pop_front both fail with
IndexOutOfRange, raised by the start-index bounds check of remove_at,
while pop fails with the distinct Underflow error. -/
theorem C10_empty_pop_variants (a : Array ℤ) (h : size a = 0) :
    pop_back a = .error .IndexOutOfRange ∧
    pop_front a = .error .IndexOutOfRange ∧
    pop a = .error .Underflow := by
  refine ⟨?_, ?_, ?_⟩
  · unfold pop_back remove_at index_in_bounds
    rw [if_pos (show ¬ (0 ≤ (size a : Int) - 1 ∧ (size a : Int) - 1 < (size a : Int)) by
      intro hc
      have := hc.1
      omega)]
  · unfold pop_front remove_at index_in_bounds
    rw [if_pos (show ¬ ((0 : Int) ≤ 0 ∧ (0 : Int) < (size a : Int)) by
      intro hc
      have := hc.2
      omega)]
  · unfold pop emptyA
    rw [if_pos h]

/-- C10, witness at the freshly constructed empty array of capacity 1. -/
theorem C10_empty_pop_variants_witness :
    pop_back ({ capacity := 1, elems := [] } : Array ℤ) = .error .IndexOutOfRange ∧
    pop_front ({ capacity := 1, elems := [] } : Array ℤ) = .error .IndexOutOfRange ∧
    pop ({ capacity := 1, elems := [] } : Array ℤ) = .error .Underflow :=
  C10_empty_pop_variants { capacity := 1, elems := [] } (by decide)

end DS

